import Mathlib

/-!
Verification of the `take` mini-CLI library (`take.ts`).

The development shallowly embeds the command registry, the longest-prefix
command resolver, the flag tokenizer/parser, the environment/default
fallback, the help renderer's exit behaviour and short-alias assignment,
and the registration-time validation.  JavaScript records are modelled as
association lists that preserve insertion order, JavaScript strings as
Lean `String`, and the process environment as a lookup function
`String → Option String`.  Strings thrown as control flow are modelled
with `Except String`.
-/

set_option linter.unusedVariables false

namespace Take

/-- Result of the ECMAScript `parseFloat` builtin when it does not yield
`NaN`: either a finite decimal value (modelled exactly as a rational) or a
signed infinity. -/
inductive JsNum where
  | finite (q : Rat)
  | inf (neg : Bool)
  deriving DecidableEq

/-- Runtime value of a flag: the `initial` field of a flag declaration has
TypeScript type `number | string | boolean | Date`, and parsed flag values
are produced by `convert`.  `date` stands for a `Date` object (opaque; its
`typeof` is `"object"`). -/
inductive Value where
  | num (n : JsNum)
  | str (s : String)
  | bool (b : Bool)
  | date
  deriving DecidableEq

/-- JavaScript `typeof` of a `Value` (`typeof Date` object is `"object"`). -/
def typeOf : Value → String
  | .num _ => "number"
  | .str _ => "string"
  | .bool _ => "boolean"
  | .date => "object"

/-- JavaScript truthiness of a `Value` (`0`, `""` and `false` are falsy). -/
def truthy : Value → Bool
  | .num (.finite q) => q != 0
  | .num (.inf _) => true
  | .str s => s != ""
  | .bool b => b
  | .date => true

/-- Flag declaration (`Flag` in take.ts): an initial value, a description
and an optional environment-variable name. -/
structure Flag where
  initial : Value
  description : String
  env : Option String := none
  deriving DecidableEq

/-- A `Flag` annotated with its declared name (`namedFlag` in take.ts). -/
structure namedFlag where
  name : String
  initial : Value
  description : String
  env : Option String := none
  deriving DecidableEq

/-- A validated command (`TakeCommand` in take.ts after `Register`
normalised its name).  The `run` handler itself is not embedded; the
dispatcher model reports when it would be invoked. -/
structure TakeCommand where
  name : String
  description : String
  help : Option String := none
  flags : List (String × Flag)
  deriving DecidableEq

/-! ### String helpers (kernel-computable replacements for the JS builtins) -/

/-- Lexicographic strict comparison of char lists, the semantics of the
JavaScript `<` operator on strings. -/
def charListLt : List Char → List Char → Bool
  | _, [] => false
  | [], _ :: _ => true
  | a :: as, b :: bs => decide (a < b) || (a == b && charListLt as bs)

/-- JavaScript string comparison `a < b`. -/
def strLt (a b : String) : Bool := charListLt a.data b.data

/-- Non-strict key ordering used to state and prove sortedness of the
JS sort with comparator `(a, b) => a < b ? -1 : 1` (the keys being sorted
are pairwise distinct at every call site, so a stable sort with that
comparator produces exactly the ascending order). -/
def keyLe (key : α → String) (a b : α) : Prop := strLt (key b) (key a) = false

instance (key : α → String) : DecidableRel (keyLe key) :=
  fun a b => inferInstanceAs (Decidable (_ = false))

/-- JavaScript `Array.prototype.join(" ")`. -/
def joinSp : List String → String
  | [] => ""
  | [w] => w
  | w :: ws => w ++ " " ++ joinSp ws

/-- Whitespace word-splitting on a char list (accumulator holds the current
word reversed); models `s.trim().split(/\s+/g)` followed by discarding the
empty token that JS produces for an all-whitespace string. -/
def splitWordsAux : List Char → List Char → List (List Char)
  | cur, [] => if cur.isEmpty then [] else [cur.reverse]
  | cur, c :: rest =>
    if c.isWhitespace then
      if cur.isEmpty then splitWordsAux [] rest
      else cur.reverse :: splitWordsAux [] rest
    else splitWordsAux (c :: cur) rest

/-- Name normalisation performed by `Register`:
`c.names = c.name.trim().split(/\s+/g); c.name = c.names.join(" ")`. -/
def normalizeName (s : String) : String :=
  joinSp ((splitWordsAux [] s.data).map (fun w => String.mk w))

/-- Boolean prefix test on char lists. -/
def leadsWith : List Char → List Char → Bool
  | [], _ => true
  | _ :: _, [] => false
  | a :: as, b :: bs => a == b && leadsWith as bs

/-! ### Value conversion (`convert` in take.ts) -/

/-- Numeric value of a list of decimal digit characters. -/
def digitsToNat (ds : List Char) : Nat :=
  ds.foldl (fun a c => a * 10 + (c.toNat - 48)) 0

/-- Modelled from the ECMAScript `parseFloat` builtin used by `convert`:
skip leading whitespace, an optional sign, then either the literal
`Infinity` or a decimal significand with optional fraction and exponent;
the longest valid prefix is converted and `none` is returned (for `NaN`)
exactly when no digit is found. -/
def parseFloat (s : String) : Option JsNum :=
  let cs := s.data.dropWhile Char.isWhitespace
  let sign : Bool := cs.head? = some '-'
  let cs := if cs.head? = some '-' ∨ cs.head? = some '+' then cs.tail else cs
  if leadsWith "Infinity".data cs then
    some (JsNum.inf sign)
  else
    let intDigits := cs.takeWhile Char.isDigit
    let cs1 := cs.dropWhile Char.isDigit
    let fracDigits := if cs1.head? = some '.' then cs1.tail.takeWhile Char.isDigit else []
    let cs2 := if cs1.head? = some '.' then cs1.tail.dropWhile Char.isDigit else cs1
    if intDigits.isEmpty ∧ fracDigits.isEmpty then none
    else
      let expPart : Int :=
        match cs2 with
        | 'e' :: rest | 'E' :: rest =>
          match rest with
          | '-' :: ds =>
            let d := ds.takeWhile Char.isDigit
            if d.isEmpty then 0 else -(digitsToNat d : Int)
          | '+' :: ds =>
            let d := ds.takeWhile Char.isDigit
            if d.isEmpty then 0 else (digitsToNat d : Int)
          | ds =>
            let d := ds.takeWhile Char.isDigit
            if d.isEmpty then 0 else (digitsToNat d : Int)
        | _ => 0
      let mag : Rat :=
        ((digitsToNat intDigits : Rat) +
          (digitsToNat fracDigits : Rat) / ((10 : Rat) ^ fracDigits.length)) *
          (10 : Rat) ^ expPart
      some (JsNum.finite (if sign then -mag else mag))

/-- The `convert` function of take.ts: coerce a raw string token to the
type named by `type` (obtained as `typeof initial`).  A thrown string is
modelled as `Except.error`. -/
def convert (val : String) (type : String) : Except String Value :=
  if type = "string" then .ok (.str val)
  else if type = "number" then
    match parseFloat val with
    | none => .error ("expected a number, got: " ++ val)
    | some f => .ok (.num f)
  else if type = "boolean" then .ok (.bool (val != ""))
  else .error ("unknown type: " ++ type)

/-! ### Flag schema normalisation (`namedFlags` in take.ts) -/

/-- Annotate one record entry with its key. -/
def mkNamed (p : String × Flag) : namedFlag :=
  { name := p.1, initial := p.2.initial, description := p.2.description, env := p.2.env }

/-- The `namedFlags` function of take.ts: list the entries of the flag
record (in declaration order, as `Object.entries` does) and sort them
ascending by name (`toSorted((na, nb) => na.name < nb.name ? -1 : 1)`). -/
def namedFlags (record : List (String × Flag)) : List namedFlag :=
  List.insertionSort (keyLe namedFlag.name) (record.map mkNamed)

/-- The implicit `help` flag pushed onto every command's flag spec list
after sorting (take.ts lines 316-321). -/
def helpFlag : namedFlag :=
  { name := "help", initial := .bool false, description := "show help", env := none }

/-! ### Command resolution (stage 1 of `cmd`, take.ts lines 298-312) -/

/-- The `commands.find((c) => c.name === name)` lookup. -/
def findCmd (commands : List TakeCommand) (nm : String) : Option TakeCommand :=
  commands.find? (fun c => c.name == nm)

/-- The descending loop `for (let i = args.length - 1; i >= 0; i--)`:
`resolveAux commands args k` tries the prefixes of `args` of lengths
`k, k-1, ..., 1` (joined with spaces) against the registered names. -/
def resolveAux (commands : List TakeCommand) (args : List String) : Nat → Option (TakeCommand × List String)
  | 0 => none
  | k + 1 =>
    match findCmd commands (joinSp (args.take (k + 1))) with
    | some c => some (c, args.drop (k + 1))
    | none => resolveAux commands args k

/-- Stage 1 of `cmd`: split `args` into the longest prefix naming a
registered command and the remaining arguments. -/
def resolve (commands : List TakeCommand) (args : List String) : Option (TakeCommand × List String) :=
  resolveAux commands args args.length

/-! ### Flag parsing (stage 2 of `cmd`, take.ts lines 322-367) -/

/-- JavaScript object lookup `vals[name]` on the flag-value record. -/
def getVal (vals : List (String × Value)) (nm : String) : Option Value :=
  (vals.find? (fun p => p.1 == nm)).map (fun p => p.2)

/-- JavaScript object assignment `vals[name] = v`: update the entry in
place if the key exists, otherwise append it. -/
def setVal : List (String × Value) → String → Value → List (String × Value)
  | [], nm, v => [(nm, v)]
  | p :: rest, nm, v => if p.1 == nm then (p.1, v) :: rest else p :: setVal rest nm v

/-- The match of a token against the flag-marker regex `^-(-?)(\S+)$`:
`some (long, name)` gives capture groups `m[1]` (as a Bool) and `m[2]`.
The regex engine backtracks on `(-?)`, so `--` alone matches as the short
flag `-`. -/
def matchFlagToken (s : String) : Option (Bool × String) :=
  match s.data with
  | '-' :: rest =>
    match rest with
    | '-' :: r2 =>
      if r2 ≠ [] ∧ r2.all (fun c => ¬ c.isWhitespace) then some (true, String.mk r2)
      else if rest.all (fun c => ¬ c.isWhitespace) then some (false, String.mk rest)
      else none
    | _ =>
      if rest ≠ [] ∧ rest.all (fun c => ¬ c.isWhitespace) then some (false, String.mk rest)
      else none
  | _ => none

/-- The `flagSpecs.find(...)` lookup for a flag token: a long flag matches
by exact name, a short flag matches when the first letter of the flag's
name occurs among the token's letters (`name.split("")`). -/
def findFlag (flagSpecs : List namedFlag) (long : Bool) (nm : String) : Option namedFlag :=
  flagSpecs.find? (fun f =>
    if long then f.name == nm
    else
      match f.name.data.head? with
      | some c => nm.data.contains c
      | none => false)

/-- Mutable state of the token-classification loop: the pending valued
flag (`nextFlag`), the flag-value record (`flagVals`) and the positional
arguments (`cmdArgs`). -/
structure ParseState where
  nextFlag : Option namedFlag
  flagVals : List (String × Value)
  cmdArgs : List String
  deriving DecidableEq

/-- Result of classifying one token. -/
inductive StepOut where
  | proceed (st : ParseState)
  | unknown (nm : String)
  | convErr (e : String)
  deriving DecidableEq

/-- Classification of a single token of `rest` (one iteration of the
`for (const arg of rest)` loop in take.ts lines 328-360). -/
def parseStep (flagSpecs : List namedFlag) (st : ParseState) (arg : String) : StepOut :=
  match st.nextFlag with
  | some nf =>
    match convert arg (typeOf nf.initial) with
    | .error e => .convErr e
    | .ok v => .proceed { st with nextFlag := none, flagVals := setVal st.flagVals nf.name v }
  | none =>
    match matchFlagToken arg with
    | some (long, nm) =>
      match findFlag flagSpecs long nm with
      | none => .unknown nm
      | some fs =>
        if typeOf fs.initial = "boolean" then
          .proceed { st with flagVals := setVal st.flagVals fs.name (.bool true) }
        else
          .proceed { st with nextFlag := some fs }
    | none => .proceed { st with cmdArgs := st.cmdArgs ++ [arg] }

/-- Loop outcome: either the final state or an early `unknown flag`
detail-help exit. -/
inductive ParseOut where
  | done (st : ParseState)
  | unknownFlag (nm : String)
  deriving DecidableEq

/-- The token-classification loop from a given state; a conversion error
is a thrown string. -/
def parseArgsFrom (flagSpecs : List namedFlag) : ParseState → List String → Except String ParseOut
  | st, [] => .ok (.done st)
  | st, arg :: rest =>
    match parseStep flagSpecs st arg with
    | .proceed st' => parseArgsFrom flagSpecs st' rest
    | .unknown nm => .ok (.unknownFlag nm)
    | .convErr e => .error e

/-- Initial loop state. -/
def initState : ParseState := { nextFlag := none, flagVals := [], cmdArgs := [] }

/-- The whole classification pass over the remaining arguments. -/
def parseArgs (flagSpecs : List namedFlag) (rest : List String) : Except String ParseOut :=
  parseArgsFrom flagSpecs initState rest

/-! ### Environment fallback and defaults (take.ts lines 369-382) -/

/-- The condition `env && process.env[env]` of the defaulting loop: the
declared variable name must be truthy (non-empty) and its value in the
process environment must be truthy (set and non-empty). -/
def envFallback (env : String → Option String) (flag : namedFlag) : Option String :=
  match flag.env with
  | some e =>
    if e ≠ "" then
      match env e with
      | some v => if v ≠ "" then some v else none
      | none => none
    else none
  | none => none

/-- The defaulting loop `for (const flag of flagSpecs)`: a flag already
present keeps its parsed value; otherwise a truthy environment value is
converted and used; otherwise the declared initial value is used (the
source's `initial !== undefined` guard always holds, since `initial` is a
required field of `Flag`). -/
def applyDefaults (env : String → Option String) :
    List namedFlag → List (String × Value) → Except String (List (String × Value))
  | [], vals => .ok vals
  | flag :: restSpecs, vals =>
    if (getVal vals flag.name).isSome then applyDefaults env restSpecs vals
    else
      match envFallback env flag with
      | some raw =>
        match convert raw (typeOf flag.initial) with
        | .error e => .error e
        | .ok v => applyDefaults env restSpecs (setVal vals flag.name v)
      | none => applyDefaults env restSpecs (setVal vals flag.name flag.initial)

/-! ### The dispatcher (`cmd`, take.ts lines 294-400) and its outcomes -/

/-- Terminal effect of one dispatch: render the command-list Overview
(`help(msg?)`), render the per-command Detail view (`helpFor(cmd, specs,
msg?)`), or invoke the matched command's handler with the parsed input. -/
inductive Outcome where
  | overview (msg : Option String)
  | detail (c : TakeCommand) (msg : Option String)
  | run (c : TakeCommand) (flagVals : List (String × Value)) (cmdArgs : List String)
  deriving DecidableEq

/-- Exit code of the Overview renderer `help` (take.ts line 246):
`process.exit(msg ? 1 : 0)`. -/
def helpExitCode (msg : Option String) : Nat :=
  match msg with
  | some _ => 1
  | none => 0

/-- Exit code of the Detail renderer `helpFor` (take.ts line 290):
`process.exit(0)`, regardless of whether an error message was printed. -/
def helpForExitCode (msg : Option String) : Nat := 0

/-- Process exit code produced by an outcome (`none` when the handler is
invoked and the dispatch continues). -/
def exitCodeOf : Outcome → Option Nat
  | .overview msg => some (helpExitCode msg)
  | .detail _ msg => some (helpForExitCode msg)
  | .run _ _ _ => none

/-- The `cmd` function of take.ts: resolve the command, build the flag
spec list (sorted declared flags plus the implicit `help` flag), classify
the remaining tokens, handle missing values and the `help` flag, then
apply environment/default fallback.  Strings thrown (by `convert`) are
`Except.error`; all other exits are `Outcome`s. -/
def cmd (commands : List TakeCommand) (env : String → Option String) (args : List String) :
    Except String Outcome :=
  if args.isEmpty then .ok (.overview none)
  else
    match resolve commands args with
    | none => .ok (.overview (some ("no matched command: " ++ joinSp args)))
    | some (mtch, rest) =>
      let flagSpecs := namedFlags mtch.flags ++ [helpFlag]
      match parseArgs flagSpecs rest with
      | .error e => .error e
      | .ok (.unknownFlag nm) => .ok (.detail mtch (some ("unknown flag \"" ++ nm ++ "\"")))
      | .ok (.done st) =>
        match st.nextFlag with
        | some nf => .ok (.detail mtch (some ("missing value for flag: " ++ nf.name)))
        | none =>
          if (getVal st.flagVals "help").elim false truthy then .ok (.detail mtch none)
          else
            match applyDefaults env flagSpecs st.flagVals with
            | .error e => .error e
            | .ok vals => .ok (.run mtch vals st.cmdArgs)

/-- The catch block around `match.run` (take.ts lines 393-397): a string
thrown by the handler is routed to the per-command Detail view. -/
def handlerCatch (mtch : TakeCommand) (thrown : String) : Outcome :=
  .detail mtch (some thrown)

/-- The tail of `Register` (take.ts lines 401-431): the help intercept on
the raw argument vector, then the dispatch, with a thrown string routed to
the Overview view. -/
def runTop (commands : List TakeCommand) (env : String → Option String) (args : List String) :
    Outcome :=
  if args.isEmpty || args.head? == some "-h" || args.head? == some "--help" then .overview none
  else
    match cmd commands env args with
    | .ok o => o
    | .error e => .overview (some e)

/-! ### Short-alias assignment in the Detail view (take.ts lines 251-257) -/

/-- First letter `name[0]` of a flag name (`none` models JS `undefined`
for the empty string). -/
def firstLetter (s : String) : Option Char := s.data.head?

/-- The `short` closure of `helpFor` folded over the rendered flags: for
each first letter in order, `some l` when the letter `l` was free and is
now claimed (rendering `-letter`), `none` when it was already taken (no
short alias). -/
def assignShortsGo (seen : List (Option Char)) : List (Option Char) → List (Option (Option Char))
  | [] => []
  | l :: ls =>
    if seen.contains l then none :: assignShortsGo seen ls
    else some l :: assignShortsGo (l :: seen) ls

/-- Short aliases in rendering order for a flag spec list. -/
def shortAliasList (specs : List namedFlag) : List (Option (Option Char)) :=
  assignShortsGo [] (specs.map (fun f => firstLetter f.name))

/-! ### Registration-time validation (`Register`, take.ts lines 176-214) -/

/-- A raw command as passed to `Register`, before validation: `name` is
`none` when the field is absent or not a string, `hasRun` records whether
`run` is a callable function, `flags` is `none` when the field is absent,
and `flagsIsArray` records the degenerate case of an array value. -/
structure RawCommand where
  name : Option String := none
  hasRun : Bool := true
  flags : Option (List (String × Flag)) := none
  flagsIsArray : Bool := false
  description : String := ""
  help : Option String := none
  deriving DecidableEq

/-- The validation loop of `Register`: each `exit(...)` (print and
`process.exit(1)`) is modelled as a thrown error.  `seen` is the `names`
duplicate set; the checks run in source order (name, duplicate, run,
flags, flag descriptions; a missing description is any falsy one, i.e.
the empty string). -/
def validateLoop (seen : List String) (acc : List TakeCommand) :
    List RawCommand → Except String (List TakeCommand)
  | [] => .ok acc
  | c :: rest =>
    match c.name with
    | none => .error "all CLI(commands) must have a \"name\""
    | some nm =>
      let name := normalizeName nm
      if seen.contains name then .error ("duplicate command name: " ++ name)
      else if ¬ c.hasRun then .error ("command \"" ++ name ++ "\" must have a \"run\" function")
      else
        match c.flags with
        | none => .error ("command \"" ++ name ++ "\" must have \"flags\", you can use \x7b\x7d")
        | some fl =>
          if c.flagsIsArray then
            .error ("command \"" ++ name ++ "\" flags must be an object, not an array")
          else
            match fl.find? (fun p => p.2.description == "") with
            | some p =>
              .error ("command \"" ++ name ++ "\" flag \"" ++ p.1 ++ "\" must have a \"description\"")
            | none =>
              validateLoop (name :: seen)
                (acc ++ [{ name := name, description := c.description, help := c.help, flags := fl }])
                rest

/-- Registry construction (take.ts lines 176-214): the emptiness check,
the validation loop, then `commands.sort((a, b) => a.name < b.name ? -1 : 1)`. -/
def registerValidate (commands : List RawCommand) : Except String (List TakeCommand) :=
  if commands.isEmpty then .error "CLI(commands) must have at least 1 command"
  else (validateLoop [] [] commands).map (List.insertionSort (keyLe TakeCommand.name))

/-- The violation condition claimed by the specification for registry
construction, stated in the spec's own terms (for comparison with
`registerValidate`): empty list, a command lacking a string name, a
callable run function or a flags mapping, a duplicated normalised name, or
a flag lacking a description. -/
def specViolation (commands : List RawCommand) : Prop :=
  commands = [] ∨
    (∃ c ∈ commands,
      c.name = none ∨ c.hasRun = false ∨ c.flags = none ∨ c.flagsIsArray = true ∨
        ∃ p ∈ c.flags.getD [], p.2.description = "") ∨
    ¬ ((commands.filterMap RawCommand.name).map normalizeName).Nodup

instance (commands : List RawCommand) : Decidable (specViolation commands) := by
  unfold specViolation
  infer_instance

/-! ### Concrete commands used by the claims' examples (taken from the
repository's README and type-check block) -/

/-- Empty process environment. -/
def env0 : String → Option String := fun _ => none

def buildCmd : TakeCommand :=
  { name := "build", description := "Build the project",
    flags := [("watch", { initial := .bool false, description := "Watch for changes" })] }

def greetCmd : TakeCommand :=
  { name := "greet", description := "Greet someone by name",
    flags := [("name", { initial := .str "world", description := "Name to greet" })] }

def repeatCmd : TakeCommand :=
  { name := "repeat", description := "Repeat a message N times",
    flags := [("count", { initial := .num (.finite 3), description := "Number of repetitions" })] }

def deployCmd : TakeCommand :=
  { name := "deploy", description := "Deploy the application",
    flags := [("token", { initial := .str "", description := "API token", env := some "DEPLOY_TOKEN" })] }

def dbCmd : TakeCommand :=
  { name := "db", description := "Database commands", flags := [] }

def dbMigrateCmd : TakeCommand :=
  { name := "db migrate", description := "Run database migrations", flags := [] }

/-- The `greet` command as passed raw to `Register`. -/
def rawGreet : RawCommand :=
  { name := some "greet", hasRun := true,
    flags := some [("name", { initial := Value.str "world", description := "Name to greet" })],
    description := "Greet someone by name" }

/-! ### Order lemmas for the name sort -/

theorem charListLt_irrefl (as : List Char) : charListLt as as = false := by
  induction as with
  | nil => rfl
  | cons a as ih => simp [charListLt, ih]

theorem charListLt_trans {as bs cs : List Char} (h₁ : charListLt as bs = true)
    (h₂ : charListLt bs cs = true) : charListLt as cs = true := by
  induction as generalizing bs cs with
  | nil =>
    cases bs with
    | nil => simp [charListLt] at h₁
    | cons b bs =>
      cases cs with
      | nil => simp [charListLt] at h₂
      | cons c cs => simp [charListLt]
  | cons a as ih =>
    cases bs with
    | nil => simp [charListLt] at h₁
    | cons b bs =>
      cases cs with
      | nil => simp [charListLt] at h₂
      | cons c cs =>
        simp only [charListLt, Bool.or_eq_true, Bool.and_eq_true, decide_eq_true_eq,
          beq_iff_eq] at h₁ h₂ ⊢
        rcases h₁ with h₁ | ⟨hab, h₁⟩
        · rcases h₂ with h₂ | ⟨hbc, h₂⟩
          · exact Or.inl (lt_trans h₁ h₂)
          · exact Or.inl (hbc ▸ h₁)
        · rcases h₂ with h₂ | ⟨hbc, h₂⟩
          · exact Or.inl (hab ▸ h₂)
          · exact Or.inr ⟨hab.trans hbc, ih h₁ h₂⟩

theorem charListLt_conn {as bs : List Char} (h₁ : charListLt as bs = false)
    (h₂ : charListLt bs as = false) : as = bs := by
  induction as generalizing bs with
  | nil =>
    cases bs with
    | nil => rfl
    | cons b bs => simp [charListLt] at h₁
  | cons a as ih =>
    cases bs with
    | nil => simp [charListLt] at h₂
    | cons b bs =>
      simp only [charListLt, Bool.or_eq_false_iff, Bool.and_eq_false_iff,
        decide_eq_false_iff_not, beq_eq_false_iff_ne, ne_eq] at h₁ h₂
      obtain ⟨hab, h₁'⟩ := h₁
      obtain ⟨hba, h₂'⟩ := h₂
      have heq : a = b := le_antisymm (le_of_not_lt hba) (le_of_not_lt hab)
      subst heq
      rcases h₁' with h | h
      · exact absurd rfl h
      · rcases h₂' with h' | h'
        · exact absurd rfl h'
        · rw [ih (by simpa using h) (by simpa using h')]

theorem strLt_asymm {a b : String} (h : strLt a b = true) : strLt b a = false := by
  cases hh : strLt b a with
  | false => rfl
  | true =>
    exfalso
    have h3 : charListLt a.data a.data = true := charListLt_trans h hh
    have h4 := charListLt_irrefl a.data
    rw [h3] at h4
    exact Bool.true_eq_false.mp h4

instance (key : α → String) : IsTotal α (keyLe key) := by
  constructor
  intro a b
  by_cases h : strLt (key b) (key a) = true
  · exact Or.inr (strLt_asymm h)
  · exact Or.inl (by simpa [keyLe] using h)

instance (key : α → String) : IsTrans α (keyLe key) := by
  constructor
  intro a b c hab hbc
  simp only [keyLe] at *
  cases hca : strLt (key c) (key a) with
  | false => rfl
  | true =>
    exfalso
    cases hba : strLt (key a) (key b) with
    | true =>
      have h1 : strLt (key c) (key b) = true := charListLt_trans hca hba
      rw [h1] at hbc
      exact Bool.true_eq_false.mp hbc
    | false =>
      have heq : (key a).data = (key b).data := charListLt_conn hba hab
      have hca2 : charListLt (key c).data (key a).data = true := hca
      rw [heq] at hca2
      have hbc2 : charListLt (key c).data (key b).data = false := hbc
      rw [hca2] at hbc2
      exact Bool.true_eq_false.mp hbc2

/-! ### Flag-value record lemmas -/

theorem getVal_setVal_self (vals : List (String × Value)) (nm : String) (v : Value) :
    getVal (setVal vals nm v) nm = some v := by
  induction vals with
  | nil => simp [setVal, getVal]
  | cons p rest ih =>
    by_cases h : p.1 = nm
    · simp [setVal, getVal, h]
    · simp only [setVal, getVal] at *
      rw [if_neg (by simpa using h)]
      simpa [List.find?_cons, h] using ih

theorem getVal_setVal_ne (vals : List (String × Value)) {nm nm' : String} (v : Value)
    (h : nm' ≠ nm) : getVal (setVal vals nm v) nm' = getVal vals nm' := by
  induction vals with
  | nil => simp [setVal, getVal, Ne.symm h]
  | cons p rest ih =>
    by_cases hp : p.1 = nm
    · subst hp
      simp [setVal, getVal, Ne.symm h]
    · simp only [setVal] at *
      rw [if_neg (by simpa using hp)]
      by_cases hp' : p.1 = nm'
      · simp [getVal, hp']
      · simp only [getVal, List.find?_cons] at *
        have : (p.1 == nm') = false := by simpa using hp'
        rw [this] at *
        simpa using ih

/-! ### Defaulting-loop lemmas -/

theorem applyDefaults_preserve {env : String → Option String} {specs : List namedFlag}
    {vals vals' : List (String × Value)} {nm : String} {v : Value}
    (hv : getVal vals nm = some v) (h : applyDefaults env specs vals = .ok vals') :
    getVal vals' nm = some v := by
  induction specs generalizing vals with
  | nil =>
    simp only [applyDefaults] at h
    cases h
    exact hv
  | cons flag restSpecs ih =>
    simp only [applyDefaults] at h
    by_cases hmem : (getVal vals flag.name).isSome
    · rw [if_pos hmem] at h
      exact ih hv h
    · rw [if_neg hmem] at h
      have hne : nm ≠ flag.name := by
        rintro rfl
        rw [hv] at hmem
        exact hmem rfl
      cases hfb : envFallback env flag with
      | some raw =>
        simp only [hfb] at h
        cases hcv : convert raw (typeOf flag.initial) with
        | error e => simp only [hcv] at h; cases h
        | ok cv =>
          simp only [hcv] at h
          exact ih (by rw [getVal_setVal_ne _ _ hne]; exact hv) h
      | none =>
        simp only [hfb] at h
        exact ih (by rw [getVal_setVal_ne _ _ hne]; exact hv) h

theorem applyDefaults_covers {env : String → Option String} {specs : List namedFlag}
    {vals vals' : List (String × Value)}
    (h : applyDefaults env specs vals = .ok vals') :
    ∀ f ∈ specs, (getVal vals' f.name).isSome := by
  induction specs generalizing vals with
  | nil => intro f hf; cases hf
  | cons flag restSpecs ih =>
    intro f hf
    simp only [applyDefaults] at h
    by_cases hmem : (getVal vals flag.name).isSome
    · rw [if_pos hmem] at h
      rcases List.mem_cons.mp hf with rfl | hf'
      · obtain ⟨v, hv⟩ := Option.isSome_iff_exists.mp hmem
        rw [applyDefaults_preserve hv h]
        rfl
      · exact ih h f hf'
    · rw [if_neg hmem] at h
      have step : ∀ w, applyDefaults env restSpecs (setVal vals flag.name w) = .ok vals' →
          ∀ g ∈ flag :: restSpecs, (getVal vals' g.name).isSome := by
        intro w hw g hg
        rcases List.mem_cons.mp hg with rfl | hg'
        · rw [applyDefaults_preserve (getVal_setVal_self vals g.name w) hw]
          rfl
        · exact ih hw g hg'
      cases hfb : envFallback env flag with
      | some raw =>
        simp only [hfb] at h
        cases hcv : convert raw (typeOf flag.initial) with
        | error e => simp only [hcv] at h; cases h
        | ok cv =>
          simp only [hcv] at h
          exact step cv h f hf
      | none =>
        simp only [hfb] at h
        exact step flag.initial h f hf

theorem applyDefaults_fallback {env : String → Option String} {specs : List namedFlag}
    {vals vals' : List (String × Value)} {f : namedFlag}
    (hnd : (specs.map namedFlag.name).Nodup) (hf : f ∈ specs)
    (habs : getVal vals f.name = none)
    (h : applyDefaults env specs vals = .ok vals') :
    (∀ raw cv, envFallback env f = some raw → convert raw (typeOf f.initial) = .ok cv →
      getVal vals' f.name = some cv) ∧
    (envFallback env f = none → getVal vals' f.name = some f.initial) := by
  induction specs generalizing vals with
  | nil => cases hf
  | cons flag restSpecs ih =>
    simp only [applyDefaults] at h
    rcases List.mem_cons.mp hf with rfl | hf'
    · rw [if_neg (by simp [habs])] at h
      cases hfb : envFallback env f with
      | some raw =>
        simp only [hfb] at h
        constructor
        · intro raw' cv hfb' hcv'
          obtain rfl : raw = raw' := Option.some_inj.mp hfb'
          simp only [hcv'] at h
          exact applyDefaults_preserve (getVal_setVal_self vals f.name cv) h
        · intro hnone
          cases hnone
      | none =>
        simp only [hfb] at h
        refine ⟨fun raw cv hfb' _ => ?_, fun _ =>
          applyDefaults_preserve (getVal_setVal_self vals f.name f.initial) h⟩
        cases hfb'
    · have hne : flag.name ≠ f.name := by
        intro hEq
        have : f.name ∈ restSpecs.map namedFlag.name := List.mem_map_of_mem _ hf'
        rw [← hEq] at this
        exact (List.nodup_cons.mp hnd).1 this
      have hnd' := (List.nodup_cons.mp hnd).2
      by_cases hmem : (getVal vals flag.name).isSome
      · rw [if_pos hmem] at h
        exact ih hnd' hf' habs h
      · rw [if_neg hmem] at h
        cases hfb : envFallback env flag with
        | some raw =>
          simp only [hfb] at h
          cases hcv : convert raw (typeOf flag.initial) with
          | error e => simp only [hcv] at h; cases h
          | ok cv =>
            simp only [hcv] at h
            exact ih hnd' hf' (by rw [getVal_setVal_ne _ _ (Ne.symm hne)]; exact habs) h
        | none =>
          simp only [hfb] at h
          exact ih hnd' hf' (by rw [getVal_setVal_ne _ _ (Ne.symm hne)]; exact habs) h

theorem applyDefaults_env_congr {env₁ env₂ : String → Option String} {specs : List namedFlag}
    (hcong : ∀ g ∈ specs, envFallback env₁ g = envFallback env₂ g)
    (vals : List (String × Value)) :
    applyDefaults env₁ specs vals = applyDefaults env₂ specs vals := by
  induction specs generalizing vals with
  | nil => rfl
  | cons flag restSpecs ih =>
    have hhead := hcong flag (List.mem_cons_self flag restSpecs)
    have htail : ∀ g ∈ restSpecs, envFallback env₁ g = envFallback env₂ g :=
      fun g hg => hcong g (List.mem_cons_of_mem _ hg)
    by_cases hmem : (getVal vals flag.name).isSome
    · simp only [applyDefaults, hhead, if_pos hmem]
      exact ih htail vals
    · cases hfb : envFallback env₂ flag with
      | some raw =>
        cases hcv : convert raw (typeOf flag.initial) with
        | error e => simp only [applyDefaults, hhead, hfb, if_neg hmem, hcv]
        | ok cv =>
          simp only [applyDefaults, hhead, hfb, if_neg hmem, hcv]
          exact ih htail _
      | none =>
        simp only [applyDefaults, hhead, hfb, if_neg hmem]
        exact ih htail _

/-! ### Parse-loop lemmas -/

theorem parseArgsFrom_append (flagSpecs : List namedFlag) (st : ParseState) (xs ys : List String) :
    parseArgsFrom flagSpecs st (xs ++ ys) =
      (match parseArgsFrom flagSpecs st xs with
       | .ok (.done st') => parseArgsFrom flagSpecs st' ys
       | r => r) := by
  induction xs generalizing st with
  | nil => rfl
  | cons a xs ih =>
    simp only [List.cons_append, parseArgsFrom]
    cases parseStep flagSpecs st a with
    | proceed st' => exact ih st'
    | unknown nm => rfl
    | convErr e => rfl

/-! ### Resolver lemmas -/

theorem findCmd_eq_some {commands : List TakeCommand} {nm : String} {c : TakeCommand}
    (h : findCmd commands nm = some c) : c ∈ commands ∧ c.name = nm :=
  ⟨List.mem_of_find?_eq_some h, by have := List.find?_some h; simpa using this⟩

theorem findCmd_eq_none {commands : List TakeCommand} {nm : String}
    (h : findCmd commands nm = none) : ∀ c ∈ commands, c.name ≠ nm := by
  intro c hc
  have := List.find?_eq_none.mp h c hc
  simpa using this

theorem resolveAux_eq_none {commands : List TakeCommand} {args : List String} :
    ∀ {k}, resolveAux commands args k = none →
      ∀ j, 1 ≤ j → j ≤ k → findCmd commands (joinSp (args.take j)) = none := by
  intro k
  induction k with
  | zero => intro _ j h1 h2; omega
  | succ k ih =>
    intro h j h1 h2
    simp only [resolveAux] at h
    cases hk : findCmd commands (joinSp (args.take (k + 1))) with
    | some c => rw [hk] at h; cases h
    | none =>
      rw [hk] at h
      rcases Nat.lt_or_ge j (k + 1) with hj | hj
      · exact ih h j h1 (by omega)
      · have : j = k + 1 := by omega
        rw [this]
        exact hk

theorem resolveAux_eq_some {commands : List TakeCommand} {args : List String} :
    ∀ {k c rest}, resolveAux commands args k = some (c, rest) →
      ∃ j, 1 ≤ j ∧ j ≤ k ∧ findCmd commands (joinSp (args.take j)) = some c ∧
        rest = args.drop j ∧
        ∀ j', j < j' → j' ≤ k → findCmd commands (joinSp (args.take j')) = none := by
  intro k
  induction k with
  | zero => intro c rest h; cases h
  | succ k ih =>
    intro c rest h
    simp only [resolveAux] at h
    cases hk : findCmd commands (joinSp (args.take (k + 1))) with
    | some c' =>
      rw [hk] at h
      cases h
      exact ⟨k + 1, by omega, le_refl _, hk, rfl, fun j' h1 h2 => by omega⟩
    | none =>
      rw [hk] at h
      obtain ⟨j, hj1, hj2, hj3, hj4, hj5⟩ := ih h
      refine ⟨j, hj1, by omega, hj3, hj4, fun j' h1 h2 => ?_⟩
      rcases Nat.lt_or_ge j' (k + 1) with hj' | hj'
      · exact hj5 j' h1 (by omega)
      · have : j' = k + 1 := by omega
        rw [this]
        exact hk

/-! ### Short-alias lemmas -/

theorem assignShortsGo_getElem {seen ls : List (Option Char)} {i : Nat} {l : Option Char}
    (h : ls[i]? = some l) :
    (assignShortsGo seen ls)[i]? =
      some (if l ∈ seen ++ ls.take i then none else some l) := by
  induction ls generalizing seen i with
  | nil => simp at h
  | cons l₀ ls ih =>
    cases i with
    | zero =>
      have hl : l₀ = l := by simpa using h
      subst hl
      by_cases hc : l₀ ∈ seen
      · simp [assignShortsGo, hc]
      · simp [assignShortsGo, hc]
    | succ i =>
      simp only [List.getElem?_cons_succ] at h
      simp only [List.take_succ_cons]
      by_cases hc : l₀ ∈ seen
      · have hrw : (assignShortsGo seen (l₀ :: ls))[i + 1]? = (assignShortsGo seen ls)[i]? := by
          simp [assignShortsGo, hc]
        rw [hrw, ih h]
        have hiff : (l ∈ seen ++ ls.take i) ↔ (l ∈ seen ++ l₀ :: ls.take i) := by
          simp only [List.mem_append, List.mem_cons]
          constructor
          · rintro (h1 | h1)
            · exact Or.inl h1
            · exact Or.inr (Or.inr h1)
          · rintro (h1 | (rfl | h1))
            · exact Or.inl h1
            · exact Or.inl hc
            · exact Or.inr h1
        exact congrArg some (if_congr hiff rfl rfl)
      · have hrw : (assignShortsGo seen (l₀ :: ls))[i + 1]? = (assignShortsGo (l₀ :: seen) ls)[i]? := by
          simp [assignShortsGo, hc]
        rw [hrw, ih h]
        have hiff : (l ∈ (l₀ :: seen) ++ ls.take i) ↔ (l ∈ seen ++ l₀ :: ls.take i) := by
          simp only [List.mem_append, List.mem_cons, List.cons_append]
          tauto
        exact congrArg some (if_congr hiff rfl rfl)

theorem assignShortsGo_first {seen ls : List (Option Char)} {l : Option Char}
    (hmem : l ∈ ls) (hseen : l ∉ seen) :
    ∃ i : Nat, ls[i]? = some l ∧ (∀ j, j < i → ls[j]? ≠ some l) ∧
      (assignShortsGo seen ls)[i]? = some (some l) := by
  induction ls generalizing seen with
  | nil => cases hmem
  | cons l₀ ls ih =>
    by_cases hl : l = l₀
    · subst hl
      refine ⟨0, by simp, fun j hj => absurd hj (Nat.not_lt_zero j), ?_⟩
      simp [assignShortsGo, hseen]
    · have hmem' : l ∈ ls := by
        rcases List.mem_cons.mp hmem with h | h
        · exact absurd h hl
        · exact h
      by_cases hc : l₀ ∈ seen
      · obtain ⟨i, h1, h2, h3⟩ := ih hmem' hseen
        refine ⟨i + 1, by simpa using h1, fun j hj => ?_, ?_⟩
        · cases j with
          | zero => simp [Ne.symm hl]
          | succ j => simpa using h2 j (by omega)
        · have hrw : (assignShortsGo seen (l₀ :: ls))[i + 1]? = (assignShortsGo seen ls)[i]? := by
            simp [assignShortsGo, hc]
          rw [hrw]
          exact h3
      · have hseen' : l ∉ l₀ :: seen := by
          simp only [List.mem_cons]
          rintro (h | h)
          · exact hl h
          · exact hseen h
        obtain ⟨i, h1, h2, h3⟩ := ih hmem' hseen'
        refine ⟨i + 1, by simpa using h1, fun j hj => ?_, ?_⟩
        · cases j with
          | zero => simp [Ne.symm hl]
          | succ j => simpa using h2 j (by omega)
        · have hrw : (assignShortsGo seen (l₀ :: ls))[i + 1]? = (assignShortsGo (l₀ :: seen) ls)[i]? := by
            simp [assignShortsGo, hc]
          rw [hrw]
          exact h3

/-! ### Flag-lookup lemmas -/

theorem findFlag_long_help (l : List namedFlag) :
    ∃ fs, findFlag (l ++ [helpFlag]) true "help" = some fs ∧ fs.name = "help" := by
  unfold findFlag
  rw [List.find?_append]
  cases h : l.find? (fun f =>
      if true then f.name == "help"
      else
        match f.name.data.head? with
        | some c => "help".data.contains c
        | none => false) with
  | some fs =>
    refine ⟨fs, by simp [h], ?_⟩
    have := List.find?_some h
    simpa using this
  | none => exact ⟨helpFlag, by simp [h, helpFlag], rfl⟩

/-! ### Validation-loop lemmas -/

/-- Pointwise well-formedness of a raw command (negation of the per-command
violations named by the specification). -/
def rawOk (c : RawCommand) : Prop :=
  c.name ≠ none ∧ c.hasRun = true ∧ c.flags ≠ none ∧ c.flagsIsArray = false ∧
    ∀ p ∈ c.flags.getD [], p.2.description ≠ ""

theorem validateLoop_ok {cs : List RawCommand} :
    ∀ {seen : List String} {acc res : List TakeCommand},
      validateLoop seen acc cs = .ok res →
      (∀ c ∈ cs, rawOk c) ∧ ((cs.filterMap RawCommand.name).map normalizeName).Nodup ∧
        (∀ nm ∈ (cs.filterMap RawCommand.name).map normalizeName, nm ∉ seen) ∧
        res.map TakeCommand.name =
          acc.map TakeCommand.name ++ (cs.filterMap RawCommand.name).map normalizeName := by
  induction cs with
  | nil =>
    intro seen acc res h
    simp only [validateLoop] at h
    cases h
    simp [rawOk]
  | cons c rest ih =>
    intro seen acc res h
    simp only [validateLoop] at h
    cases hcn : c.name with
    | none => simp only [hcn] at h; cases h
    | some nm =>
      simp only [hcn] at h
      by_cases hs1 : seen.contains (normalizeName nm) = true
      · rw [if_pos hs1] at h
        cases h
      · rw [if_neg hs1] at h
        by_cases hrun : c.hasRun
        · rw [if_neg (by simp [hrun])] at h
          cases hfl : c.flags with
          | none => simp only [hfl] at h; cases h
          | some fl =>
            simp only [hfl] at h
            by_cases harr : c.flagsIsArray
            · rw [if_pos harr] at h
              cases h
            · rw [if_neg harr] at h
              cases hfind : fl.find? (fun p => p.2.description == "") with
              | some p => simp only [hfind] at h; cases h
              | none =>
                simp only [hfind] at h
                obtain ⟨ih1, ih2, ih3, ih4⟩ := ih h
                have hnm : normalizeName nm ∉ seen := by simpa using hs1
                have hdesc : ∀ p ∈ fl, p.2.description ≠ "" := by
                  intro p hp
                  have := List.find?_eq_none.mp hfind p hp
                  simpa using this
                refine ⟨?_, ?_, ?_, ?_⟩
                · intro c' hc'
                  rcases List.mem_cons.mp hc' with rfl | hc'
                  · exact ⟨by simp [hcn], by simpa using hrun, by simp [hfl],
                      by simpa using harr, by simpa [hfl] using hdesc⟩
                  · exact ih1 c' hc'
                · simp only [List.filterMap_cons, hcn, List.map_cons, List.nodup_cons]
                  refine ⟨fun hmem => ?_, ih2⟩
                  have := ih3 _ hmem
                  simp at this
                · intro nm' hnm'
                  simp only [List.filterMap_cons, hcn, List.map_cons, List.mem_cons] at hnm'
                  rcases hnm' with rfl | hnm'
                  · exact hnm
                  · have := ih3 _ hnm'
                    intro hmem
                    exact this (List.mem_cons_of_mem _ hmem)
                · rw [ih4]
                  simp [List.filterMap_cons, hcn]
        · rw [if_pos (by simpa using hrun)] at h
          cases h

theorem validateLoop_ok_of {cs : List RawCommand} :
    ∀ {seen : List String} {acc : List TakeCommand},
      (∀ c ∈ cs, rawOk c) → ((cs.filterMap RawCommand.name).map normalizeName).Nodup →
      (∀ nm ∈ (cs.filterMap RawCommand.name).map normalizeName, nm ∉ seen) →
      ∃ res, validateLoop seen acc cs = .ok res := by
  induction cs with
  | nil => intro seen acc _ _ _; exact ⟨acc, rfl⟩
  | cons c rest ih =>
    intro seen acc hok hnd hseen
    obtain ⟨hname, hrun, hflags, harr, hdesc⟩ := hok c (List.mem_cons_self c rest)
    cases hcn : c.name with
    | none => exact absurd hcn hname
    | some nm =>
      cases hfl : c.flags with
      | none => exact absurd hfl hflags
      | some fl =>
        have hmemhead : normalizeName nm ∈ (((c :: rest).filterMap RawCommand.name).map normalizeName) := by
          simp [List.filterMap_cons, hcn]
        have hs1 : seen.contains (normalizeName nm) = false := by
          have := hseen _ hmemhead
          simpa using this
        have hfind : fl.find? (fun p => p.2.description == "") = none := by
          rw [List.find?_eq_none]
          intro p hp
          have := hdesc p (by simpa [hfl] using hp)
          simpa using this
        have hnd' : ((rest.filterMap RawCommand.name).map normalizeName).Nodup := by
          simp only [List.filterMap_cons, hcn, List.map_cons, List.nodup_cons] at hnd
          exact hnd.2
        have hhead_notin : normalizeName nm ∉ (rest.filterMap RawCommand.name).map normalizeName := by
          simp only [List.filterMap_cons, hcn, List.map_cons, List.nodup_cons] at hnd
          exact hnd.1
        have hseen' : ∀ nm' ∈ (rest.filterMap RawCommand.name).map normalizeName,
            nm' ∉ normalizeName nm :: seen := by
          intro nm' hnm'
          simp only [List.mem_cons]
          rintro (rfl | hmem)
          · exact hhead_notin hnm'
          · exact hseen nm' (by simp [List.filterMap_cons, hcn, hnm']) hmem
        obtain ⟨res, hres⟩ := ih (fun c' hc' => hok c' (List.mem_cons_of_mem _ hc')) hnd' hseen'
        refine ⟨res, ?_⟩
        simp only [validateLoop, hcn, hfl]
        rw [if_neg (by simpa using hs1), if_neg (by simp [hrun]), if_neg (by simpa using harr)]
        simp only [hfind]
        exact hres

/-! ### Dispatcher lemmas -/

theorem cmd_eq_dispatch {commands : List TakeCommand} {env : String → Option String}
    {args : List String} {mtch : TakeCommand} {rest : List String}
    (hie : args.isEmpty = false)
    (hres : resolve commands args = some (mtch, rest)) :
    cmd commands env args =
      (match parseArgs (namedFlags mtch.flags ++ [helpFlag]) rest with
       | .error e => .error e
       | .ok (.unknownFlag nm) => .ok (.detail mtch (some ("unknown flag \"" ++ nm ++ "\"")))
       | .ok (.done st) =>
         match st.nextFlag with
         | some nf => .ok (.detail mtch (some ("missing value for flag: " ++ nf.name)))
         | none =>
           if (getVal st.flagVals "help").elim false truthy then .ok (.detail mtch none)
           else
             match applyDefaults env (namedFlags mtch.flags ++ [helpFlag]) st.flagVals with
             | .error e => .error e
             | .ok vals => .ok (.run mtch vals st.cmdArgs)) := by
  simp only [cmd, hie, Bool.false_eq_true, if_false, hres]

theorem cmd_help_appended {commands : List TakeCommand} {env : String → Option String}
    {args rest₀ : List String} {mtch : TakeCommand} {st : ParseState}
    (hres : resolve commands args = some (mtch, rest₀ ++ ["--help"]))
    (hparse : parseArgs (namedFlags mtch.flags ++ [helpFlag]) rest₀ = .ok (.done st))
    (hnf : st.nextFlag = none) :
    ∃ msg, cmd commands env args = .ok (.detail mtch msg) := by
  have hie : args.isEmpty = false := by
    cases args with
    | nil => rw [show resolve commands [] = none from rfl] at hres; cases hres
    | cons a as => rfl
  rw [cmd_eq_dispatch hie hres]
  have hparse' : parseArgsFrom (namedFlags mtch.flags ++ [helpFlag]) initState rest₀ =
      .ok (.done st) := hparse
  have hp2 : parseArgs (namedFlags mtch.flags ++ [helpFlag]) (rest₀ ++ ["--help"]) =
      parseArgsFrom (namedFlags mtch.flags ++ [helpFlag]) st ["--help"] := by
    show parseArgsFrom _ initState (rest₀ ++ ["--help"]) = _
    rw [parseArgsFrom_append, hparse']
  rw [hp2]
  obtain ⟨fs, hfs, hfsname⟩ := findFlag_long_help (namedFlags mtch.flags)
  have hmt : matchFlagToken "--help" = some (true, "help") := rfl
  by_cases hb : typeOf fs.initial = "boolean"
  · refine ⟨none, ?_⟩
    simp only [parseArgsFrom, parseStep, hnf, hmt, hfs, if_pos hb, hfsname,
      getVal_setVal_self]
    rfl
  · refine ⟨some ("missing value for flag: " ++ fs.name), ?_⟩
    simp only [parseArgsFrom, parseStep, hnf, hmt, hfs, if_neg hb]

/-! ## Claim theorems -/

/-- C1: for every registered command set and non-empty token list, the
resolver selects the command whose (normalised) name equals the longest
space-joined prefix of the tokens, checking prefixes in decreasing length,
and returns the tokens after the prefix; if no prefix matches, `cmd`
produces the `no matched command` Overview help failure carrying the full
argument string.  In particular, with both `db migrate` and `db`
registered, `["db", "migrate", "x"]` resolves to `db migrate` with
remaining arguments `["x"]`. -/
theorem resolver_longest_prefix_correct (commands : List TakeCommand)
    (args : List String) (hne : args ≠ []) :
    (∀ c rest, resolve commands args = some (c, rest) →
      ∃ k, 1 ≤ k ∧ k ≤ args.length ∧ c ∈ commands ∧ c.name = joinSp (args.take k) ∧
        rest = args.drop k ∧
        ∀ j, k < j → j ≤ args.length → ∀ c' ∈ commands, c'.name ≠ joinSp (args.take j)) ∧
    (resolve commands args = none →
      (∀ j, 1 ≤ j → j ≤ args.length → ∀ c' ∈ commands, c'.name ≠ joinSp (args.take j)) ∧
      ∀ env, cmd commands env args =
        .ok (.overview (some ("no matched command: " ++ joinSp args)))) ∧
    resolve [dbCmd, dbMigrateCmd] ["db", "migrate", "x"] = some (dbMigrateCmd, ["x"]) := by
  refine ⟨?_, ?_, rfl⟩
  · intro c rest h
    obtain ⟨j, hj1, hj2, hj3, hj4, hj5⟩ := resolveAux_eq_some h
    obtain ⟨hmem, hname⟩ := findCmd_eq_some hj3
    exact ⟨j, hj1, hj2, hmem, hname, hj4, fun j' h1 h2 => findCmd_eq_none (hj5 j' h1 h2)⟩
  · intro h
    refine ⟨fun j h1 h2 => findCmd_eq_none (resolveAux_eq_none h j h1 h2), fun env => ?_⟩
    have hie : args.isEmpty = false := by
      cases args with
      | nil => exact absurd rfl hne
      | cons a as => rfl
    simp only [cmd, hie, Bool.false_eq_true, if_false, h]

/-- Witness for C1 at the concrete `db migrate` example. -/
theorem resolver_longest_prefix_correct_witness :
    resolve [dbCmd, dbMigrateCmd] ["db", "migrate", "x"] = some (dbMigrateCmd, ["x"]) :=
  (resolver_longest_prefix_correct [dbCmd, dbMigrateCmd] ["db", "migrate", "x"]
    (by decide)).2.2

/-- C2 counterexample: an unknown flag renders the per-command Detail view
with the error message printed, but the process exits with code 0, not 1
(`helpFor` calls `process.exit(0)` unconditionally). -/
theorem detail_error_exits_zero_counterexample :
    runTop [greetCmd] env0 ["greet", "--bogus"] =
      .detail greetCmd (some "unknown flag \"bogus\"") ∧
    exitCodeOf (.detail greetCmd (some "unknown flag \"bogus\"")) = some 0 ∧
    exitCodeOf (.detail greetCmd (some "unknown flag \"bogus\"")) ≠ some 1 :=
  ⟨rfl, rfl, by decide⟩

/-- C2 amended: errors rendered through the Overview view (an unresolved
command, or a conversion error propagated to the top level) print the
message and exit 1, and voluntary help exits 0; but errors rendered
through the per-command Detail view (unknown flag, missing flag value, a
string thrown by the handler) print the message and exit 0. -/
theorem help_exit_codes :
    (∀ m : String, exitCodeOf (.overview (some m)) = some 1) ∧
    exitCodeOf (Outcome.overview none) = some 0 ∧
    (∀ (c : TakeCommand) (m : Option String), exitCodeOf (.detail c m) = some 0) ∧
    (∀ (c : TakeCommand) (s : String), exitCodeOf (handlerCatch c s) = some 0) ∧
    cmd [greetCmd] env0 ["greet", "--bogus"] =
      .ok (.detail greetCmd (some "unknown flag \"bogus\"")) ∧
    cmd [greetCmd] env0 ["greet", "--name"] =
      .ok (.detail greetCmd (some "missing value for flag: name")) ∧
    runTop [dbCmd] env0 ["nope"] = .overview (some "no matched command: nope") ∧
    exitCodeOf (.overview (some "no matched command: nope")) = some 1 :=
  ⟨fun m => rfl, rfl, fun c m => rfl, fun c s => rfl, rfl, rfl, rfl, rfl⟩

/-- C3: after the defaulting loop every declared flag has an entry, a
command-line value always survives defaulting unchanged (taking precedence
over environment and default), a truthy environment value is converted to
the type of the flag's initial value and used, and otherwise the declared
initial value is used. -/
theorem flag_value_precedence (env : String → Option String) (specs : List namedFlag)
    (vals vals' : List (String × Value))
    (h : applyDefaults env specs vals = .ok vals') :
    (∀ f ∈ specs, (getVal vals' f.name).isSome) ∧
    (∀ nm v, getVal vals nm = some v → getVal vals' nm = some v) ∧
    ((specs.map namedFlag.name).Nodup →
      ∀ f ∈ specs, getVal vals f.name = none →
        (∀ raw cv, envFallback env f = some raw → convert raw (typeOf f.initial) = .ok cv →
          getVal vals' f.name = some cv) ∧
        (envFallback env f = none → getVal vals' f.name = some f.initial)) :=
  ⟨applyDefaults_covers h, fun nm v hv => applyDefaults_preserve hv h,
   fun hnd f hf habs => applyDefaults_fallback hnd hf habs h⟩

/-- Witness for C3: the `deploy` command's `token` flag picks up the
converted environment value when unset on the command line. -/
theorem flag_value_precedence_witness :
    getVal [("token", Value.str "secret"), ("help", Value.bool false)] "token" =
      some (Value.str "secret") :=
  ((flag_value_precedence (fun k => if k = "DEPLOY_TOKEN" then some "secret" else none)
      (namedFlags deployCmd.flags ++ [helpFlag]) []
      [("token", Value.str "secret"), ("help", Value.bool false)] rfl).2.2 (by decide)
      { name := "token", initial := .str "", description := "API token",
        env := some "DEPLOY_TOKEN" }
      (by decide) rfl).1 "secret" (.str "secret") rfl rfl

/-- C4: a token resolving to a boolean-typed flag sets the flag to `true`
without consuming the following token (the parse state keeps no pending
flag), while a token resolving to a non-boolean flag makes the parser
consume the next token as its value; concretely, `build --watch file.txt`
yields `watch = true` with positional arguments `["file.txt"]`, and
`greet --name Alice` consumes `Alice` as the value of `name`. -/
theorem boolean_flag_no_consume :
    (∀ (flagSpecs : List namedFlag) (st : ParseState) (arg : String) (long : Bool)
        (nm : String) (fs : namedFlag),
      st.nextFlag = none → matchFlagToken arg = some (long, nm) →
      findFlag flagSpecs long nm = some fs →
      (typeOf fs.initial = "boolean" →
        parseStep flagSpecs st arg =
          .proceed { st with flagVals := setVal st.flagVals fs.name (.bool true) }) ∧
      (typeOf fs.initial ≠ "boolean" →
        parseStep flagSpecs st arg = .proceed { st with nextFlag := some fs })) ∧
    cmd [buildCmd] env0 ["build", "--watch", "file.txt"] =
      .ok (.run buildCmd [("watch", .bool true), ("help", .bool false)] ["file.txt"]) ∧
    cmd [greetCmd] env0 ["greet", "--name", "Alice"] =
      .ok (.run greetCmd [("name", .str "Alice"), ("help", .bool false)] []) := by
  refine ⟨?_, rfl, rfl⟩
  intro flagSpecs st arg long nm fs hnf hmt hff
  constructor
  · intro hb
    simp only [parseStep, hnf, hmt, hff, if_pos hb]
  · intro hb
    simp only [parseStep, hnf, hmt, hff, if_neg hb]

/-- Witness for C4: classifying `--watch` for the `build` command sets the
flag immediately and leaves no pending valued flag. -/
theorem boolean_flag_no_consume_witness :
    parseStep (namedFlags buildCmd.flags ++ [helpFlag]) initState "--watch" =
      .proceed { initState with
        flagVals := setVal initState.flagVals "watch" (.bool true) } :=
  (boolean_flag_no_consume.1 (namedFlags buildCmd.flags ++ [helpFlag]) initState
      "--watch" true "watch"
      { name := "watch", initial := .bool false, description := "Watch for changes" }
      rfl rfl (by decide)).1 rfl

/-- C5 counterexample: invoking a resolvable command with `--help` appended
does not always render help — when the preceding token is a valued flag
marker, `--help` is consumed as that flag's value, the handler is invoked
and no help view is printed. -/
theorem help_appended_consumed_counterexample :
    runTop [greetCmd] env0 ["greet", "--name", "--help"] =
      .run greetCmd [("name", .str "--help"), ("help", .bool false)] [] ∧
    exitCodeOf (.run greetCmd [("name", .str "--help"), ("help", .bool false)] []) = none :=
  ⟨rfl, rfl⟩

/-- C5 amended: zero arguments, or a leading `--help`/`-h` token, always
render the Overview and exit 0; and a resolvable command with `--help`
appended renders its Detail view (exiting 0, handler not invoked)
provided the parse of the tokens before `--help` leaves no valued flag
pending (otherwise `--help` is consumed as that flag's value). -/
theorem help_paths (commands : List TakeCommand) (env : String → Option String) :
    runTop commands env [] = .overview none ∧
    exitCodeOf (Outcome.overview none) = some 0 ∧
    (∀ args : List String, args.head? = some "--help" →
      runTop commands env args = .overview none) ∧
    (∀ args : List String, args.head? = some "-h" →
      runTop commands env args = .overview none) ∧
    (∀ (args rest₀ : List String) (mtch : TakeCommand) (st : ParseState),
      resolve commands args = some (mtch, rest₀ ++ ["--help"]) →
      parseArgs (namedFlags mtch.flags ++ [helpFlag]) rest₀ = .ok (.done st) →
      st.nextFlag = none →
      ∃ msg, cmd commands env args = .ok (.detail mtch msg) ∧
        exitCodeOf (.detail mtch msg) = some 0) := by
  refine ⟨rfl, rfl, ?_, ?_, ?_⟩
  · intro args h
    have hb : (args.head? == some "--help") = true := by rw [h]; rfl
    simp [runTop, hb]
  · intro args h
    have hb : (args.head? == some "-h") = true := by rw [h]; rfl
    simp [runTop, hb]
  · intro args rest₀ mtch st h1 h2 h3
    obtain ⟨msg, hmsg⟩ := cmd_help_appended h1 h2 h3
    exact ⟨msg, hmsg, rfl⟩

/-- Witness for C5 at `build --help`. -/
theorem help_paths_witness :
    ∃ msg, cmd [buildCmd] env0 ["build", "--help"] = .ok (.detail buildCmd msg) ∧
      exitCodeOf (.detail buildCmd msg) = some 0 :=
  (help_paths [buildCmd] env0).2.2.2.2 ["build", "--help"] [] buildCmd initState rfl rfl rfl

/-- C7: conversion to `number` fails — with the error message carrying the
offending raw token — exactly when `parseFloat` yields `NaN`; conversion
to `string` never fails; an unrecognised target type fails with an
`unknown type` error.  Concretely, `repeat --count abc` (where `count`
defaults to `3`) throws `expected a number, got: abc`. -/
theorem convert_number_errors :
    (∀ raw : String,
      convert raw "number" = .error ("expected a number, got: " ++ raw) ↔
        parseFloat raw = none) ∧
    (∀ raw : String, convert raw "string" = .ok (.str raw)) ∧
    (∀ raw t : String, t ≠ "string" → t ≠ "number" → t ≠ "boolean" →
      convert raw t = .error ("unknown type: " ++ t)) ∧
    cmd [repeatCmd] env0 ["repeat", "--count", "abc"] =
      .error "expected a number, got: abc" := by
  refine ⟨?_, fun raw => rfl, ?_, rfl⟩
  · intro raw
    have hnum : convert raw "number" = (match parseFloat raw with
        | none => Except.error ("expected a number, got: " ++ raw)
        | some f => Except.ok (Value.num f)) := by
      simp [convert]
    rw [hnum]
    constructor
    · intro h
      cases hp : parseFloat raw with
      | none => rfl
      | some f => rw [hp] at h; cases h
    · intro hp
      rw [hp]
  · intro raw t h1 h2 h3
    simp [convert, h1, h2, h3]

/-- Witness for C7 at the raw tokens `abc` (bad number) and target type
`object` (unknown type). -/
theorem convert_number_errors_witness :
    convert "abc" "number" = .error ("expected a number, got: " ++ "abc") ∧
    convert "x" "object" = .error ("unknown type: " ++ "object") :=
  ⟨(convert_number_errors.1 "abc").mpr rfl,
   convert_number_errors.2.2.1 "x" "object" (by decide) (by decide) (by decide)⟩

/-- C10: an environment variable bound to a flag but set to the empty
string is treated exactly like an unset one — the empty value is never
converted or used, the flag receives its declared initial value, and the
whole defaulting pass computes the same result as with the variable
removed from the environment. -/
theorem empty_env_treated_unset (env : String → Option String) (specs : List namedFlag)
    (vals vals' : List (String × Value)) (f : namedFlag) (e : String)
    (hnd : (specs.map namedFlag.name).Nodup) (hf : f ∈ specs)
    (habs : getVal vals f.name = none) (henv : f.env = some e) (hemp : env e = some "")
    (h : applyDefaults env specs vals = .ok vals') :
    getVal vals' f.name = some f.initial ∧
    applyDefaults env specs vals =
      applyDefaults (fun k => if k = e then none else env k) specs vals := by
  have hfb : envFallback env f = none := by
    simp only [envFallback, henv]
    by_cases he : e ≠ ""
    · rw [if_pos he, hemp]
      simp
    · rw [if_neg he]
  have hcong : ∀ g ∈ specs,
      envFallback env g = envFallback (fun k => if k = e then none else env k) g := by
    intro g hg
    cases hge : g.env with
    | none => simp [envFallback, hge]
    | some e' =>
      by_cases he' : e' = e
      · subst he'
        simp [envFallback, hge, hemp]
      · simp [envFallback, hge, he']
  exact ⟨(applyDefaults_fallback hnd hf habs h).2 hfb, applyDefaults_env_congr hcong vals⟩

/-- Witness for C10: `deploy` with `DEPLOY_TOKEN` set to the empty string
falls back to the declared default `""`. -/
theorem empty_env_treated_unset_witness :
    getVal [("token", Value.str ""), ("help", Value.bool false)] "token" =
      some (Value.str "") :=
  (empty_env_treated_unset (fun k => if k = "DEPLOY_TOKEN" then some "" else none)
    (namedFlags deployCmd.flags ++ [helpFlag]) []
    [("token", Value.str ""), ("help", Value.bool false)]
    { name := "token", initial := .str "", description := "API token",
      env := some "DEPLOY_TOKEN" }
    "DEPLOY_TOKEN" (by decide) (by decide) rfl rfl rfl rfl).1

/-- C6: the Flag Schema Normaliser emits flags in ascending name order
(stated with the JavaScript string comparison: no later flag's name
compares below an earlier one's), and in the Detail view's rendering order
a flag receives the short alias formed from its first letter exactly when
no earlier-rendered flag has the same first letter; of two flags both
starting with `w`, only the alphabetically-first gets `-w`. -/
theorem short_alias_first_come :
    (∀ record : List (String × Flag),
      ((namedFlags record).map namedFlag.name).Pairwise (fun a b => strLt b a = false)) ∧
    (∀ (specs : List namedFlag) (i : Nat) (l : Option Char),
      (specs.map (fun f => firstLetter f.name))[i]? = some l →
      (shortAliasList specs)[i]? =
        some (if l ∈ (specs.map (fun f => firstLetter f.name)).take i then none
              else some l)) ∧
    shortAliasList (namedFlags
      [("wipe", { initial := .bool false, description := "wipe things" }),
       ("watch", { initial := .bool false, description := "watch things" })]) =
      [some (some 'w'), none] := by
  refine ⟨?_, ?_, rfl⟩
  · intro record
    have hs := List.sorted_insertionSort (keyLe namedFlag.name) (record.map mkNamed)
    exact hs.map namedFlag.name (fun a b hab => hab)
  · intro specs i l h
    have := @assignShortsGo_getElem [] _ _ _ h
    simpa [shortAliasList] using this

/-- Witness for C6: in the sorted pair `watch`, `wipe` the second flag's
first letter is already claimed, so it gets no short alias. -/
theorem short_alias_first_come_witness :
    (shortAliasList
      [{ name := "watch", initial := .bool false, description := "watch things" },
       { name := "wipe", initial := .bool false, description := "wipe things" }])[1]? =
      some none := by
  have := short_alias_first_come.2.1
    [{ name := "watch", initial := .bool false, description := "watch things" },
     { name := "wipe", initial := .bool false, description := "wipe things" }]
    1 (some 'w') rfl
  simpa using this

/-- C8: registry construction fails (a fail-fast `exit`) precisely when the
registration list is empty, some command lacks a string name, a callable
run function or a flags mapping (or passes an array), two commands share a
normalised name, or some flag lacks a description; and every successfully
constructed registry has pairwise distinct command names. -/
theorem register_validation_iff (commands : List RawCommand) :
    ((registerValidate commands).isOk = true ↔ ¬ specViolation commands) ∧
    (∀ res, registerValidate commands = .ok res → (res.map TakeCommand.name).Nodup) := by
  constructor
  · constructor
    · intro h hviol
      rw [registerValidate] at h
      by_cases hemp : commands.isEmpty
      · rw [if_pos hemp] at h
        simp [Except.isOk, Except.toBool] at h
      · rw [if_neg hemp] at h
        cases hloop : validateLoop [] [] commands with
        | error e =>
          rw [hloop] at h
          simp [Except.map, Except.isOk, Except.toBool] at h
        | ok res₀ =>
          obtain ⟨hok, hnd, _, _⟩ := validateLoop_ok hloop
          rcases hviol with h1 | h2 | h3
          · rw [h1] at hemp
            exact hemp rfl
          · obtain ⟨c, hc, hbad⟩ := h2
            obtain ⟨n1, n2, n3, n4, n5⟩ := hok c hc
            rcases hbad with hb | hb | hb | hb | hb
            · exact n1 hb
            · rw [hb] at n2; cases n2
            · exact n3 hb
            · rw [hb] at n4; cases n4
            · obtain ⟨p, hp, hpd⟩ := hb
              exact n5 p hp hpd
          · exact h3 hnd
    · intro hnv
      have hne : commands ≠ [] := fun hx => hnv (Or.inl hx)
      have hgood : ∀ c ∈ commands, rawOk c := by
        intro c hc
        refine ⟨?_, ?_, ?_, ?_, ?_⟩
        · intro hx
          exact hnv (Or.inr (Or.inl ⟨c, hc, Or.inl hx⟩))
        · cases hx : c.hasRun with
          | true => rfl
          | false => exact absurd (hnv (Or.inr (Or.inl ⟨c, hc, Or.inr (Or.inl hx)⟩))) not_false
        · intro hx
          exact hnv (Or.inr (Or.inl ⟨c, hc, Or.inr (Or.inr (Or.inl hx))⟩))
        · cases hx : c.flagsIsArray with
          | false => rfl
          | true =>
            exact absurd (hnv (Or.inr (Or.inl ⟨c, hc, Or.inr (Or.inr (Or.inr (Or.inl hx)))⟩)))
              not_false
        · intro p hp hpd
          exact hnv (Or.inr (Or.inl ⟨c, hc, Or.inr (Or.inr (Or.inr (Or.inr ⟨p, hp, hpd⟩)))⟩))
      have hnd : ((commands.filterMap RawCommand.name).map normalizeName).Nodup := by
        by_contra hx
        exact hnv (Or.inr (Or.inr hx))
      obtain ⟨res, hres⟩ := validateLoop_ok_of hgood hnd (fun nm _ hmem => List.not_mem_nil nm hmem)
      rw [registerValidate, if_neg (by simpa using hne), hres]
      rfl
  · intro res hres
    rw [registerValidate] at hres
    by_cases hemp : commands.isEmpty
    · rw [if_pos hemp] at hres
      cases hres
    · rw [if_neg hemp] at hres
      cases hloop : validateLoop [] [] commands with
      | error e =>
        rw [hloop] at hres
        cases hres
      | ok res₀ =>
        rw [hloop] at hres
        have hres' : res = List.insertionSort (keyLe TakeCommand.name) res₀ := by
          have h2 : (Except.ok (List.insertionSort (keyLe TakeCommand.name) res₀) :
              Except String (List TakeCommand)) = Except.ok res := hres
          exact (Except.ok.inj h2).symm
        obtain ⟨_, hnd, _, hnames⟩ := validateLoop_ok hloop
        subst hres'
        have hperm : (List.insertionSort (keyLe TakeCommand.name) res₀).Perm res₀ :=
          List.perm_insertionSort _ _
        have hpm := hperm.map TakeCommand.name
        have hnd₀ : (res₀.map TakeCommand.name).Nodup := by
          rw [hnames]
          simpa using hnd
        exact hpm.symm.nodup hnd₀

/-- Witness for C8 at a concrete one-command registry. -/
theorem register_validation_iff_witness :
    (registerValidate [rawGreet]).isOk = true ∧
    (([{ name := "greet", description := "Greet someone by name",
         flags := [("name", { initial := Value.str "world", description := "Name to greet" })] }] :
      List TakeCommand).map TakeCommand.name).Nodup :=
  ⟨(register_validation_iff [rawGreet]).1.mpr (by decide),
   (register_validation_iff [rawGreet]).2
     [{ name := "greet", description := "Greet someone by name",
        flags := [("name", { initial := Value.str "world", description := "Name to greet" })] }]
     rfl⟩

/-- C9: the implicit `help` flag is appended after the sorted user flags,
so when a command declares a flag whose name starts with `h`, the short
token `-h` resolves to the first such user flag in sorted order (not to
the implicit help flag), and in the Detail view a user flag (at some index
inside the sorted user-flag block) carries the `-h` alias while the
help flag, rendered last, gets no short alias. -/
theorem dash_h_prefers_user_flag (fl : List (String × Flag))
    (hex : ∃ f ∈ namedFlags fl, firstLetter f.name = some 'h') :
    (findFlag (namedFlags fl ++ [helpFlag]) false "h" =
      (namedFlags fl).find? (fun f => firstLetter f.name == some 'h') ∧
     ∃ f₀, (namedFlags fl).find? (fun f => firstLetter f.name == some 'h') = some f₀ ∧
       f₀ ∈ namedFlags fl ∧ firstLetter f₀.name = some 'h') ∧
    (∃ i : Nat, i < (namedFlags fl).length ∧
      (shortAliasList (namedFlags fl ++ [helpFlag]))[i]? = some (some (some 'h'))) ∧
    (shortAliasList (namedFlags fl ++ [helpFlag]))[(namedFlags fl).length]? = some none := by
  obtain ⟨fh, hfhmem, hfhl⟩ := hex
  have hfind : findFlag (namedFlags fl ++ [helpFlag]) false "h" =
      ((namedFlags fl ++ [helpFlag]).find? (fun f => firstLetter f.name == some 'h')) := by
    unfold findFlag
    congr 1
    funext f
    cases hh : f.name.data.head? with
    | none => simp [firstLetter, hh]
    | some c =>
      simp only [firstLetter, hh]
      show ("h".data.contains c) = (some c == some 'h')
      have hopt : (some c == some 'h') = (c == 'h') := rfl
      rw [hopt]
      show (c == 'h' || List.elem c []) = (c == 'h')
      simp
  have hpsome : ((namedFlags fl).find? (fun f => firstLetter f.name == some 'h')).isSome := by
    rw [List.find?_isSome]
    exact ⟨fh, hfhmem, by simp [hfhl]⟩
  obtain ⟨f₀, hf₀⟩ := Option.isSome_iff_exists.mp hpsome
  have hmain : findFlag (namedFlags fl ++ [helpFlag]) false "h" =
      (namedFlags fl).find? (fun f => firstLetter f.name == some 'h') := by
    rw [hfind, List.find?_append, hf₀]
    rfl
  obtain ⟨u, hu, hgu⟩ := List.mem_iff_getElem.mp hfhmem
  have hlu : ((namedFlags fl ++ [helpFlag]).map (fun f => firstLetter f.name))[u]? =
      some (some 'h') := by
    rw [List.getElem?_map, List.getElem?_append_left hu, List.getElem?_eq_getElem hu]
    simp [hgu, hfhl]
  have hlmem : some 'h' ∈ ((namedFlags fl ++ [helpFlag]).map (fun f => firstLetter f.name)) :=
    List.mem_iff_getElem?.mpr ⟨u, hlu⟩
  obtain ⟨i, h1, h2, h3⟩ := @assignShortsGo_first [] _ _ hlmem (List.not_mem_nil _)
  have hile : i ≤ u := by
    by_contra hgt
    exact h2 u (by omega) hlu
  have hln : ((namedFlags fl ++ [helpFlag]).map (fun f => firstLetter f.name))[
      (namedFlags fl).length]? = some (some 'h') := by
    rw [List.getElem?_map, List.getElem?_append_right (le_refl _)]
    simp [helpFlag, firstLetter]
  have hlast := @assignShortsGo_getElem [] _ _ _ hln
  have htake : some 'h' ∈
      ((namedFlags fl ++ [helpFlag]).map (fun f => firstLetter f.name)).take
        (namedFlags fl).length := by
    rw [List.mem_iff_getElem?]
    refine ⟨u, ?_⟩
    rw [List.getElem?_take]
    rw [if_pos hu]
    exact hlu
  refine ⟨⟨hmain, f₀, hf₀, List.mem_of_find?_eq_some hf₀, ?_⟩,
    ⟨i, lt_of_le_of_lt hile hu, h3⟩, ?_⟩
  · have := List.find?_some hf₀
    simpa using this
  · show (assignShortsGo []
        ((namedFlags fl ++ [helpFlag]).map (fun f => firstLetter f.name)))[
        (namedFlags fl).length]? = some none
    rw [hlast, if_pos (by simpa using htake)]

/-- Witness for C9 with the single user flag `host`. -/
theorem dash_h_prefers_user_flag_witness :
    findFlag (namedFlags
        [("host", { initial := Value.str "localhost", description := "Host name" })] ++
        [helpFlag]) false "h" =
      (namedFlags
        [("host", { initial := Value.str "localhost", description := "Host name" })]).find?
        (fun f => firstLetter f.name == some 'h') :=
  ((dash_h_prefers_user_flag
      [("host", { initial := Value.str "localhost", description := "Host name" })]
      ⟨{ name := "host", initial := Value.str "localhost", description := "Host name",
         env := none }, by decide, rfl⟩).1).1

/-! ### End-to-end evaluations of the model on the README's examples -/
example : resolve [dbCmd, dbMigrateCmd] ["db", "migrate", "x"] = some (dbMigrateCmd, ["x"]) := rfl
example : cmd [buildCmd] env0 ["build", "--watch", "file.txt"] =
    .ok (.run buildCmd [("watch", .bool true), ("help", .bool false)] ["file.txt"]) := rfl
example : cmd [greetCmd] env0 ["greet", "--bogus"] =
    .ok (.detail greetCmd (some "unknown flag \"bogus\"")) := rfl
example : cmd [repeatCmd] env0 ["repeat", "--count", "abc"] =
    .error "expected a number, got: abc" := rfl
example : runTop [greetCmd] env0 ["greet", "--name", "--help"] =
    .run greetCmd [("name", .str "--help"), ("help", .bool false)] [] := rfl
example : cmd [greetCmd] env0 ["greet", "--help"] = .ok (.detail greetCmd none) := rfl
example : cmd [greetCmd] env0 ["greet", "-n", "Alice"] =
    .ok (.run greetCmd [("name", .str "Alice"), ("help", .bool false)] []) := rfl
example : cmd [deployCmd] (fun k => if k = "DEPLOY_TOKEN" then some "secret" else env0 k) ["deploy"] =
    .ok (.run deployCmd [("token", .str "secret"), ("help", .bool false)] []) := rfl
example : cmd [deployCmd] (fun k => if k = "DEPLOY_TOKEN" then some "" else env0 k) ["deploy"] =
    .ok (.run deployCmd [("token", .str ""), ("help", .bool false)] []) := rfl
example : matchFlagToken "--" = some (false, "-") := rfl
example : matchFlagToken "-h" = some (false, "h") := rfl
example : shortAliasList (namedFlags
      [("wipe", { initial := .bool false, description := "b" }),
       ("watch", { initial := .bool false, description := "a" })]) =
    [some (some 'w'), none] := rfl
example : namedFlags
      [("wipe", { initial := .bool false, description := "b" }),
       ("watch", { initial := .bool false, description := "a" })] =
    [{ name := "watch", initial := .bool false, description := "a" },
     { name := "wipe", initial := .bool false, description := "b" }] := rfl
example : registerValidate
      [{ name := some "  db   migrate ", hasRun := true, flags := some [] },
       { name := some "db", hasRun := true, flags := some [] }] =
    .ok [{ name := "db", description := "", flags := [] },
         { name := "db migrate", description := "", flags := [] }] := rfl
example : registerValidate [] = .error "CLI(commands) must have at least 1 command" := rfl
example : registerValidate
      [{ name := some "a", hasRun := true, flags := some [] },
       { name := some " a ", hasRun := true, flags := some [] }] =
    .error "duplicate command name: a" := rfl
example : cmd [dbCmd] env0 ["nope", "x"] =
    .ok (.overview (some "no matched command: nope x")) := rfl
example : (convert "3.5" "number").isOk = true := rfl
example : parseFloat "Infinity" = some (.inf false) := rfl
example : parseFloat "abc" = none := rfl

end Take
